import Mathlib

/-!
Verification of the BookVault response-cache / retry-policy core
(`Bookvault/cache.py`, `Bookvault/apis/google_books.py`,
`Bookvault/apis/openai_engine.py`).

The Python code is shallowly embedded: the SQLite `cache` table becomes a
list of rows, `json.dumps` / `json.loads` become an executable encoder and
fueled parser over a JSON value tree, the `retry_on_failure` decorator and
the `GoogleBooksAPI.search` retry loop become explicit state-passing
recursions over a stream of per-attempt outcomes, and `time.sleep` calls are
recorded as a list of rational delays.
-/

/-! ## JSON values

Model of the payload domain handled by Python's `json` module at the cache
boundary (`json.dumps` on `set`, `json.loads` on `get`).  Numbers are
modelled as integers; strings are lists of characters.  `JsonList` and
`JsonObj` are inlined list types so that the encoder, parser and proofs can
recurse mutually and structurally. -/

mutual

inductive Json where
  | null : Json
  | bool : Bool → Json
  | num : Int → Json
  | str : List Char → Json
  | arr : JsonList → Json
  | obj : JsonObj → Json

inductive JsonList where
  | nil : JsonList
  | cons : Json → JsonList → JsonList

inductive JsonObj where
  | nil : JsonObj
  | cons : List Char → Json → JsonObj → JsonObj

end

/-- Convert a plain list of values into the inlined `JsonList`. -/
def toJsonList : List Json → JsonList
  | [] => .nil
  | x :: xs => .cons x (toJsonList xs)

/-- Python truthiness of a decoded JSON value (`if cached:` in the source):
`None`, `False`, `0`, `""`, `[]` and `{}` are falsy. -/
def Json.truthy : Json → Bool
  | .null => false
  | .bool b => b
  | .num n => decide (n ≠ 0)
  | .str s => !s.isEmpty
  | .arr .nil => false
  | .arr (.cons _ _) => true
  | .obj .nil => false
  | .obj (.cons _ _ _) => true

/-! ## Serialization: model of `json.dumps` -/

/-- The character for a single decimal digit. -/
def digitChar (d : Nat) : Char := Char.ofNat (48 + d)

/-- Decimal digits of a natural number, most significant first. -/
def natChars (n : Nat) : List Char :=
  if _h : n < 10 then [digitChar n]
  else natChars (n / 10) ++ [digitChar (n % 10)]
  termination_by n
  decreasing_by
    exact Nat.div_lt_self (by omega) (by omega)

/-- Decimal rendering of an integer. -/
def encodeInt (n : Int) : List Char :=
  if n < 0 then '-' :: natChars n.natAbs else natChars n.toNat

/-- Body of a JSON string literal: escape the quote and the backslash,
pass other characters through. -/
def encodeStrChars : List Char → List Char
  | [] => []
  | c :: cs =>
      (if c = '"' ∨ c = '\\' then ['\\', c] else [c]) ++ encodeStrChars cs

mutual

/-- Model of `json.dumps` (with compact separators): render a JSON value
to its text form, the string stored in the cache's `value` column. -/
def Json.encode : Json → List Char
  | Json.null => ['n', 'u', 'l', 'l']
  | Json.bool true => ['t', 'r', 'u', 'e']
  | Json.bool false => ['f', 'a', 'l', 's', 'e']
  | Json.num n => encodeInt n
  | Json.str s => '"' :: (encodeStrChars s ++ ['"'])
  | Json.arr xs => '[' :: (Json.encodeList xs ++ [']'])
  | Json.obj xs => '\x7b' :: (Json.encodeObjBody xs ++ ['\x7d'])

/-- Comma-separated rendering of array elements. -/
def Json.encodeList : JsonList → List Char
  | .nil => []
  | .cons x .nil => Json.encode x
  | .cons x (.cons y tl) =>
      Json.encode x ++ ',' :: Json.encodeList (.cons y tl)

/-- Comma-separated rendering of object members. -/
def Json.encodeObjBody : JsonObj → List Char
  | .nil => []
  | .cons k v .nil =>
      '"' :: (encodeStrChars k ++ '"' :: ':' :: Json.encode v)
  | .cons k v (.cons k2 v2 tl) =>
      '"' :: (encodeStrChars k ++ '"' :: ':' :: Json.encode v) ++
        ',' :: Json.encodeObjBody (.cons k2 v2 tl)

end

/-! ## Deserialization: model of `json.loads` -/

/-- Decimal digit test on a character. -/
def isDigitC (c : Char) : Bool := decide (48 ≤ c.toNat) && decide (c.toNat ≤ 57)

/-- True when the input does not begin with a decimal digit (so a number
literal just before it cannot absorb it). -/
def noDigitStart : List Char → Bool
  | [] => true
  | c :: _ => !isDigitC c

/-- Split a leading run of decimal digits from the input. -/
def spanDigits : List Char → List Char × List Char
  | [] => ([], [])
  | c :: rest =>
      if isDigitC c then
        let p := spanDigits rest
        (c :: p.1, p.2)
      else ([], c :: rest)

/-- Numeric value of a digit string, most significant first. -/
def digitsVal (ds : List Char) : Nat :=
  ds.foldl (fun a c => 10 * a + (c.toNat - 48)) 0

/-- Parse an integer literal. -/
def parseNum (s : List Char) : Option (Json × List Char) :=
  match s with
  | [] => none
  | c :: r =>
      if c = '-' then
        let p := spanDigits r
        if p.1 = [] then none else some (.num (-(digitsVal p.1 : Int)), p.2)
      else
        let p := spanDigits (c :: r)
        if p.1 = [] then none else some (.num (digitsVal p.1 : Int), p.2)

/-- Parse the body of a string literal after its opening quote, undoing the
escapes produced by `encodeStrChars`. -/
def parseStr : List Char → Option (List Char × List Char)
  | [] => none
  | c :: rest =>
      if c = '"' then some ([], rest)
      else if c = '\\' then
        match rest with
        | [] => none
        | e :: rest2 =>
            match parseStr rest2 with
            | some p => some (e :: p.1, p.2)
            | none => none
      else
        match parseStr rest with
        | some p => some (c :: p.1, p.2)
        | none => none
  termination_by s => s.length

mutual

/-- Fueled recursive-descent parser for one JSON value; model of the
decoding half of `json.loads`. -/
def parseJson : Nat → List Char → Option (Json × List Char)
  | 0, _ => none
  | _ + 1, [] => none
  | fuel + 1, c :: s =>
      if c = 'n' then
        match s with
        | 'u' :: 'l' :: 'l' :: r => some (.null, r)
        | _ => none
      else if c = 't' then
        match s with
        | 'r' :: 'u' :: 'e' :: r => some (.bool true, r)
        | _ => none
      else if c = 'f' then
        match s with
        | 'a' :: 'l' :: 's' :: 'e' :: r => some (.bool false, r)
        | _ => none
      else if c = '"' then
        match parseStr s with
        | some p => some (.str p.1, p.2)
        | none => none
      else if c = '[' then
        match s with
        | [] => none
        | c2 :: r2 =>
            if c2 = ']' then some (.arr .nil, r2)
            else
              match parseItems fuel (c2 :: r2) with
              | some p => some (.arr p.1, p.2)
              | none => none
      else if c = '\x7b' then
        match s with
        | [] => none
        | c2 :: r2 =>
            if c2 = '\x7d' then some (.obj .nil, r2)
            else
              match parseMembers fuel (c2 :: r2) with
              | some p => some (.obj p.1, p.2)
              | none => none
      else parseNum (c :: s)

/-- Parse a nonempty comma-separated element list up to the closing
bracket. -/
def parseItems : Nat → List Char → Option (JsonList × List Char)
  | 0, _ => none
  | fuel + 1, s =>
      match parseJson fuel s with
      | none => none
      | some p =>
          match p.2 with
          | [] => none
          | c :: r2 =>
              if c = ',' then
                match parseItems fuel r2 with
                | some q => some (.cons p.1 q.1, q.2)
                | none => none
              else if c = ']' then some (.cons p.1 .nil, r2)
              else none

/-- Parse a nonempty comma-separated member list up to the closing
brace. -/
def parseMembers : Nat → List Char → Option (JsonObj × List Char)
  | 0, _ => none
  | fuel + 1, s =>
      match s with
      | [] => none
      | c :: r =>
          if c = '"' then
            match parseStr r with
            | none => none
            | some kp =>
                match kp.2 with
                | [] => none
                | c2 :: r3 =>
                    if c2 = ':' then
                      match parseJson fuel r3 with
                      | none => none
                      | some vp =>
                          match vp.2 with
                          | [] => none
                          | c3 :: r5 =>
                              if c3 = ',' then
                                match parseMembers fuel r5 with
                                | some q => some (.cons kp.1 vp.1 q.1, q.2)
                                | none => none
                              else if c3 = '\x7d' then
                                some (.cons kp.1 vp.1 .nil, r5)
                              else none
                    else none
          else none

end

/-- Model of `json.loads`: parse a full JSON document; any leftover input
or parse failure is a `json.JSONDecodeError`, i.e. `none`. -/
def Json.loads (s : List Char) : Option Json :=
  match parseJson (s.length + 1) s with
  | some (v, []) => some v
  | _ => none

/-! ## Fuel measure for the parser -/

mutual

/-- Parser fuel needed for one value. -/
def Json.size : Json → Nat
  | .null => 1
  | .bool _ => 1
  | .num _ => 1
  | .str _ => 1
  | .arr xs => Json.sizeL xs + 1
  | .obj xs => Json.sizeO xs + 1

/-- Parser fuel needed for an element list. -/
def Json.sizeL : JsonList → Nat
  | .nil => 1
  | .cons x tl => max (Json.size x) (Json.sizeL tl) + 1

/-- Parser fuel needed for a member list. -/
def Json.sizeO : JsonObj → Nat
  | .nil => 1
  | .cons _ v tl => max (Json.size v) (Json.sizeO tl) + 1

end

/-! ## SQLite cache: model of `Bookvault/cache.py`

The `cache` table (`key TEXT PRIMARY KEY, value TEXT, timestamp REAL`) is a
list of rows with distinct keys; timestamps (`time.time()`) are rationals.
The `broken` flag models an unavailable storage layer: every statement the
connection executes raises, which the model renders as `Except.error`.
`SQLiteCache.get` and `SQLiteCache.set` wrap their statements in
`try/except` in the source and so absorb that error; `clear` and
`clear_old_entries` have no handler and let it escape. -/

structure CacheRow where
  key : List Char
  value : List Char
  timestamp : ℚ
deriving DecidableEq

structure SQLiteCache where
  rows : List CacheRow
  broken : Bool
  maxAgeHours : ℚ
deriving DecidableEq

namespace SQLiteCache

/-- Model of `SELECT value FROM cache WHERE key=? LIMIT 1` on the
connection: raises when the storage layer is broken. -/
def selectValue (db : SQLiteCache) (k : List Char) :
    Except (List Char) (Option (List Char)) :=
  if db.broken then .error ['d', 'b']
  else .ok ((db.rows.find? fun r => decide (r.key = k)).map fun r => r.value)

/-- Model of `INSERT OR REPLACE INTO cache (key, value, timestamp)`. -/
def insertOrReplace (db : SQLiteCache) (k : List Char) (v : List Char)
    (ts : ℚ) : Except (List Char) SQLiteCache :=
  if db.broken then .error ['d', 'b']
  else .ok { db with
    rows := ⟨k, v, ts⟩ :: db.rows.filter fun r => !decide (r.key = k) }

/-- `SQLiteCache.get`: look the key up, `json.loads` the stored text; a
missing row, an undecodable payload (`json.JSONDecodeError`) and any
storage error (`except Exception`) all yield `None`. -/
def get (db : SQLiteCache) (k : List Char) : Option Json :=
  match selectValue db k with
  | .error _ => none
  | .ok none => none
  | .ok (some raw) => Json.loads raw

/-- `SQLiteCache.set`: store `json.dumps(value)` under the key with the
current time, replacing any previous row; any storage error is swallowed
(`except Exception`) and the call returns normally. -/
def set (db : SQLiteCache) (k : List Char) (v : Json) (now : ℚ) :
    SQLiteCache :=
  match insertOrReplace db k (Json.encode v) now with
  | .error _ => db
  | .ok db2 => db2

/-- `SQLiteCache.clear` (`DELETE FROM cache`): no `try/except` in the
source, so a storage error propagates to the caller. -/
def clear (db : SQLiteCache) : Except (List Char) SQLiteCache :=
  if db.broken then .error ['d', 'b']
  else .ok { db with rows := [] }

/-- `SQLiteCache.clear_old_entries`: count, then delete, the rows whose
`timestamp` is strictly below `now - max_age_hours * 3600`, and return the
count.  No `try/except`: a storage error propagates. -/
def clear_old_entries (db : SQLiteCache) (now : ℚ) :
    Except (List Char) (SQLiteCache × Nat) :=
  if db.broken then .error ['d', 'b']
  else
    let cutoff := now - db.maxAgeHours * 3600
    let hit := db.rows.filter fun r => decide (r.timestamp < cutoff)
    .ok ({ db with rows := db.rows.filter fun r => !decide (r.timestamp < cutoff) },
      hit.length)

end SQLiteCache

/-- One cache operation, for stating state invariants over arbitrary
operation sequences. -/
inductive CacheOp where
  | set (k : List Char) (v : Json) (now : ℚ)
  | clear
  | clearOld (now : ℚ)

/-- Apply one operation; when `clear` / `clear_old_entries` raise, the
statement has not run, so the table is unchanged. -/
def applyOp (db : SQLiteCache) : CacheOp → SQLiteCache
  | .set k v now => db.set k v now
  | .clear =>
      match db.clear with
      | .ok db2 => db2
      | .error _ => db
  | .clearOld now =>
      match db.clear_old_entries now with
      | .ok p => p.1
      | .error _ => db

/-- Apply a sequence of operations in order. -/
def applyOps (ops : List CacheOp) (db : SQLiteCache) : SQLiteCache :=
  ops.foldl applyOp db

/-- The cache holds at most one entry per key. -/
def nodupKeys (db : SQLiteCache) : Prop :=
  (db.rows.map fun r => r.key).Nodup

/-! ## Retry decorator: model of `retry_on_failure`
(`Bookvault/apis/openai_engine.py`)

One call of a wrapped function is an `Outcome`; the wrapped operation is a
stream of outcomes indexed by attempt number.  The classified exception
tuple `(APIError, RateLimitError, APIConnectionError)` is `retryable`
(with its kind kept so rate-limit failures can be told apart); any other
exception is `fatal` and re-raised at once. -/

inductive ErrKind where
  | rateLimit
  | apiError
  | connection
deriving DecidableEq

inductive Outcome (α : Type) where
  | success (v : α)
  | retryable (kind : ErrKind) (msg : List Char)
  | fatal (msg : List Char)

/-- Whether an attempt failed with one of the caught retryable
exceptions. -/
def Outcome.isRetryable : Outcome α → Bool
  | .retryable _ _ => true
  | _ => false

/-- How a decorated call ends: a returned value, the re-raised last
retryable exception after exhaustion, or an immediately re-raised
unexpected exception. -/
inductive RetryOutcome (α : Type) where
  | ok (v : α)
  | raised (msg : Option (List Char))
  | reraised (msg : List Char)

/-- Result of one decorated call: its outcome, the number of times the
wrapped function was invoked, and the delays passed to `time.sleep`, in
order. -/
structure RunResult (α : Type) where
  outcome : RetryOutcome α
  calls : Nat
  sleeps : List ℚ

/-- The `for attempt in range(max_retries + 1)` loop of the decorator.
`k` is the number of iterations left, `attempt` the loop counter, `d` the
mutable `current_delay`, `lastExc` the mutable `last_exception`. -/
def retryLoop (op : Nat → Outcome α) (maxRetries : Nat) (backoff : ℚ) :
    Nat → Nat → ℚ → Option (List Char) → List ℚ → Nat → RunResult α
  | 0, _, _, lastExc, sleeps, calls => ⟨.raised lastExc, calls, sleeps⟩
  | k + 1, attempt, d, _lastExc, sleeps, calls =>
      match op attempt with
      | .success v => ⟨.ok v, calls + 1, sleeps⟩
      | .retryable _ msg =>
          if attempt < maxRetries then
            retryLoop op maxRetries backoff k (attempt + 1) (d * backoff)
              (some msg) (sleeps ++ [d]) (calls + 1)
          else
            retryLoop op maxRetries backoff k (attempt + 1) d (some msg)
              sleeps (calls + 1)
      | .fatal msg => ⟨.reraised msg, calls + 1, sleeps⟩

/-- Model of one call through `retry_on_failure(max_retries, delay,
backoff)`: run the loop from attempt 0 with `current_delay = delay`.
Source defaults are `max_retries=3, delay=1.0, backoff=2.0`. -/
def retry_on_failure (op : Nat → Outcome α) (maxRetries : Nat)
    (delay backoff : ℚ) : RunResult α :=
  retryLoop op maxRetries backoff (maxRetries + 1) 0 delay none [] 0

/-! ## Google Books search: model of `GoogleBooksAPI.search`
(`Bookvault/apis/google_books.py`)

Each iteration of `while retry_count < Config.MAX_RETRIES` performs one
HTTP request; its outcome is classified by the `except` clauses of the
source.  A successful response carries the book records already produced
by `Book.from_google_api(item)`, each with its `cover_url` and its
`to_dict()` payload. -/

/-- Default of `Config.MAX_RETRIES` (`config.py`). -/
def Config.MAX_RETRIES : Nat := 3

structure BItem where
  cover_url : List Char
  dict : Json

inductive GBOutcome where
  | success (items : List BItem)
  | http429
  | httpOther
  | timeout
  | reqExc429
  | reqExcOther
  | unexpected

/-- The failure kinds the search loop retries: HTTP 429 (both `HTTPError`
and bare `RequestException` forms) and timeouts. -/
def GBOutcome.isRetryable : GBOutcome → Bool
  | .http429 => true
  | .reqExc429 => true
  | .timeout => true
  | _ => false

/-- Any failed attempt (no successful response). -/
def GBOutcome.isFailure : GBOutcome → Bool
  | .success _ => false
  | _ => true

/-- A rate-limit failure: HTTP 429 in either exception form. -/
def GBOutcome.is429 : GBOutcome → Bool
  | .http429 => true
  | .reqExc429 => true
  | _ => false

/-- Whitespace test for `str.strip()` truthiness. -/
def isSpaceC (c : Char) : Bool := c = ' ' || c = '\t' || c = '\n' || c = '\r'

/-- Truthiness of `cover_url.strip()`: some non-whitespace character. -/
def truthyStrip (s : List Char) : Bool := s.any fun c => !isSpaceC c

/-- The cover filter of the success branch:
`if cover_url and cover_url.strip() and len(cover_url) > 10`. -/
def validCover (s : List Char) : Bool :=
  !s.isEmpty && truthyStrip s && decide (10 < s.length)

/-- Books kept from a successful response: items with a valid cover, as
their `to_dict()` payloads. -/
def processItems (items : List BItem) : List Json :=
  (items.filter fun it => validCover it.cover_url).map fun it => it.dict

/-- Result of one `search` call: the returned value, the number of HTTP
requests made, the delays slept, and the cache afterwards. -/
structure SearchResult where
  result : Json
  calls : Nat
  sleeps : List ℚ
  cache : SQLiteCache

/-- The `while retry_count < Config.MAX_RETRIES` loop.  `k` is the number
of iterations the loop condition still allows (`maxRetries - rc`), `rc` the
mutable `retry_count`, `calls` counts requests and indexes the outcome
stream.  A 429 sleeps `2 ** retry_count` after the increment; a timeout
sleeps 1 second; other failures return `[]` at once; exhaustion returns
`[]`. -/
def searchLoop (key : List Char) (now : ℚ) (op : Nat → GBOutcome)
    (maxRetries : Nat) :
    Nat → Nat → Nat → List ℚ → SQLiteCache → SearchResult
  | 0, _, calls, sleeps, cache => ⟨.arr .nil, calls, sleeps, cache⟩
  | k + 1, rc, calls, sleeps, cache =>
      match op calls with
      | .success items =>
          let j := Json.arr (toJsonList (processItems items))
          ⟨j, calls + 1, sleeps, cache.set key j now⟩
      | .http429 =>
          if maxRetries ≤ rc + 1 then ⟨.arr .nil, calls + 1, sleeps, cache⟩
          else searchLoop key now op maxRetries k (rc + 1) (calls + 1)
            (sleeps ++ [(2 : ℚ) ^ (rc + 1)]) cache
      | .reqExc429 =>
          if maxRetries ≤ rc + 1 then ⟨.arr .nil, calls + 1, sleeps, cache⟩
          else searchLoop key now op maxRetries k (rc + 1) (calls + 1)
            (sleeps ++ [(2 : ℚ) ^ (rc + 1)]) cache
      | .timeout =>
          if maxRetries ≤ rc + 1 then ⟨.arr .nil, calls + 1, sleeps, cache⟩
          else searchLoop key now op maxRetries k (rc + 1) (calls + 1)
            (sleeps ++ [(1 : ℚ)]) cache
      | .httpOther => ⟨.arr .nil, calls + 1, sleeps, cache⟩
      | .reqExcOther => ⟨.arr .nil, calls + 1, sleeps, cache⟩
      | .unexpected => ⟨.arr .nil, calls + 1, sleeps, cache⟩

namespace GoogleBooksAPI

/-- Model of `GoogleBooksAPI.search`: consult the cache under the query
key (`if cached := self.cache.get(cache_key):` — a falsy cached value such
as `[]` falls through), then run the retry loop; on success the processed
books are written back to the cache and returned. -/
def search (cache : SQLiteCache) (key : List Char) (op : Nat → GBOutcome)
    (maxRetries : Nat) (now : ℚ) : SearchResult :=
  match SQLiteCache.get cache key with
  | some v =>
      if v.truthy then ⟨v, 0, [], cache⟩
      else searchLoop key now op maxRetries maxRetries 0 0 [] cache
  | none => searchLoop key now op maxRetries maxRetries 0 0 [] cache

end GoogleBooksAPI

/-- The cache lookup does not short-circuit the call: the key is either
missing or its cached value is falsy, so the body runs. -/
def cacheBypassed (cache : SQLiteCache) (key : List Char) : Prop :=
  ∀ v, SQLiteCache.get cache key = some v → v.truthy = false

/-! ## AI engine cached method: model of
`AIRecommendationEngine.get_captions` (`Bookvault/apis/openai_engine.py`) -/

/-- One OpenAI chat call: either the stripped nonempty lines of the
completion text, or a raised exception. -/
inductive AIOutcome where
  | success (lines : List (List Char))
  | failure (msg : List Char)

namespace AIRecommendationEngine

/-- The body after the cache check of `get_captions`: on success keep the
first `max_captions` lines, store them under the key and return them; on
any exception return `[]`. -/
def captionsBody (cache : SQLiteCache) (key : List Char) (maxCaptions : Nat)
    (outcome : AIOutcome) (now : ℚ) : Json × SQLiteCache :=
  match outcome with
  | .success lines =>
      let captions := lines.take maxCaptions
      let j := Json.arr (toJsonList (captions.map Json.str))
      (j, cache.set key j now)
  | .failure _ => (Json.arr .nil, cache)

/-- Model of `get_captions`: `if cached := self.cache.get(cache_key):
return cached` — a falsy cached value (for instance a stored empty list)
falls through to the API call. -/
def get_captions (cache : SQLiteCache) (key : List Char) (maxCaptions : Nat)
    (outcome : AIOutcome) (now : ℚ) : Json × SQLiteCache :=
  match SQLiteCache.get cache key with
  | some v =>
      if v.truthy then (v, cache)
      else captionsBody cache key maxCaptions outcome now
  | none => captionsBody cache key maxCaptions outcome now

end AIRecommendationEngine

/-! ## Round-trip of the serialization model -/

theorem digitChar_toNat (d : Nat) (h : d < 10) : (digitChar d).toNat = 48 + d := by
  interval_cases d <;> decide

theorem isDigitC_digitChar (d : Nat) (h : d < 10) :
    isDigitC (digitChar d) = true := by
  interval_cases d <;> decide

theorem ne_of_isDigitC {c d : Char} (h : isDigitC c = true)
    (hd : isDigitC d = false) : c ≠ d := by
  intro e
  subst e
  rw [h] at hd
  exact Bool.noConfusion hd

theorem natChars_digits (n : Nat) : ∀ c ∈ natChars n, isDigitC c = true := by
  induction n using natChars.induct with
  | case1 n h =>
      intro c hc
      rw [natChars, dif_pos h] at hc
      simp only [List.mem_singleton] at hc
      subst hc
      exact isDigitC_digitChar n h
  | case2 n h ih =>
      intro c hc
      rw [natChars, dif_neg h] at hc
      rcases List.mem_append.mp hc with h1 | h2
      · exact ih c h1
      · simp only [List.mem_singleton] at h2
        subst h2
        exact isDigitC_digitChar _ (Nat.mod_lt n (by omega))

theorem natChars_cons (n : Nat) :
    ∃ c cs, natChars n = c :: cs ∧ isDigitC c = true := by
  induction n using natChars.induct with
  | case1 n h =>
      exact ⟨digitChar n, [], by rw [natChars, dif_pos h], isDigitC_digitChar n h⟩
  | case2 n h ih =>
      obtain ⟨c, cs, hc, hd⟩ := ih
      exact ⟨c, cs ++ [digitChar (n % 10)],
        by rw [natChars, dif_neg h, hc]; simp, hd⟩

theorem digitsVal_natChars (n : Nat) : digitsVal (natChars n) = n := by
  induction n using natChars.induct with
  | case1 n h =>
      rw [natChars, dif_pos h]
      simp [digitsVal, digitChar_toNat n h]
  | case2 n h ih =>
      rw [natChars, dif_neg h]
      simp only [digitsVal, List.foldl_append, List.foldl_cons, List.foldl_nil]
      rw [show (natChars (n / 10)).foldl (fun a c => 10 * a + (c.toNat - 48)) 0
          = digitsVal (natChars (n / 10)) from rfl, ih,
        digitChar_toNat _ (Nat.mod_lt n (by omega))]
      omega

theorem spanDigits_append (ds rest : List Char)
    (hds : ∀ c ∈ ds, isDigitC c = true) (hrest : noDigitStart rest = true) :
    spanDigits (ds ++ rest) = (ds, rest) := by
  induction ds with
  | nil =>
      cases rest with
      | nil => rfl
      | cons c r =>
          simp only [noDigitStart, Bool.not_eq_true'] at hrest
          simp [spanDigits, hrest]
  | cons d ds ih =>
      have hd := hds d (by simp)
      simp only [List.cons_append, spanDigits, hd, if_true, List.append_eq]
      rw [ih fun c hc => hds c (by simp [hc])]

theorem parseNum_encodeInt (n : Int) (rest : List Char)
    (h : noDigitStart rest = true) :
    parseNum (encodeInt n ++ rest) = some (.num n, rest) := by
  by_cases hneg : n < 0
  · rw [encodeInt, if_pos hneg]
    have hspan := spanDigits_append (natChars n.natAbs) rest (natChars_digits _) h
    obtain ⟨c, cs, hc, _⟩ := natChars_cons n.natAbs
    have hne : natChars n.natAbs ≠ [] := by rw [hc]; exact List.cons_ne_nil _ _
    rw [List.cons_append]
    simp [parseNum, hspan, hne, digitsVal_natChars]
    rw [abs_of_nonpos (le_of_lt hneg), neg_neg]
  · rw [encodeInt, if_neg hneg]
    have hspan := spanDigits_append (natChars n.toNat) rest (natChars_digits _) h
    obtain ⟨c, cs, hc, hd⟩ := natChars_cons n.toNat
    have hcm : c ≠ '-' := ne_of_isDigitC hd (by decide)
    rw [hc] at hspan ⊢
    rw [List.cons_append] at hspan ⊢
    simp [parseNum, hcm, hspan]
    rw [← hc, digitsVal_natChars]
    omega

theorem parseStr_encodeStrChars (s : List Char) (rest : List Char) :
    parseStr (encodeStrChars s ++ '"' :: rest) = some (s, rest) := by
  induction s with
  | nil =>
      rw [encodeStrChars, List.nil_append, parseStr.eq_def]
      simp
  | cons c cs ih =>
      by_cases hc : c = '"' ∨ c = '\\'
      · simp only [encodeStrChars, if_pos hc, List.cons_append, List.nil_append]
        rw [parseStr.eq_def]
        simp [ih]
      · simp only [encodeStrChars, if_neg hc, List.cons_append, List.nil_append]
        push_neg at hc
        rw [parseStr.eq_def]
        simp [hc.1, hc.2, ih]

theorem Json.size_pos (v : Json) : 1 ≤ Json.size v := by
  cases v <;> simp [Json.size]

theorem Json.sizeL_pos (xs : JsonList) : 1 ≤ Json.sizeL xs := by
  cases xs <;> simp [Json.sizeL]

theorem Json.sizeO_pos (xs : JsonObj) : 1 ≤ Json.sizeO xs := by
  cases xs <;> simp [Json.sizeO]

theorem encodeInt_head (n : Int) :
    ∃ c cs, encodeInt n = c :: cs ∧ ¬c = 'n' ∧ ¬c = 't' ∧ ¬c = 'f' ∧
      ¬c = '"' ∧ ¬c = '[' ∧ ¬c = '\x7b' ∧ ¬c = ']' ∧ ¬c = '\x7d' := by
  by_cases hneg : n < 0
  · exact ⟨'-', natChars n.natAbs, by rw [encodeInt, if_pos hneg], by decide,
      by decide, by decide, by decide, by decide, by decide, by decide, by decide⟩
  · obtain ⟨c, cs, hc, hd⟩ := natChars_cons n.toNat
    exact ⟨c, cs, by rw [encodeInt, if_neg hneg, hc],
      ne_of_isDigitC hd (by decide), ne_of_isDigitC hd (by decide),
      ne_of_isDigitC hd (by decide), ne_of_isDigitC hd (by decide),
      ne_of_isDigitC hd (by decide), ne_of_isDigitC hd (by decide),
      ne_of_isDigitC hd (by decide), ne_of_isDigitC hd (by decide)⟩

theorem encode_head (v : Json) :
    ∃ c cs, Json.encode v = c :: cs ∧ ¬c = ']' ∧ ¬c = '\x7d' := by
  cases v with
  | null => exact ⟨'n', _, by rw [Json.encode], by decide, by decide⟩
  | bool b =>
      cases b with
      | true => exact ⟨'t', _, by rw [Json.encode], by decide, by decide⟩
      | false => exact ⟨'f', _, by rw [Json.encode], by decide, by decide⟩
  | num n =>
      obtain ⟨c, cs, hc, h⟩ := encodeInt_head n
      exact ⟨c, cs, by rw [Json.encode, hc], h.2.2.2.2.2.2.1, h.2.2.2.2.2.2.2⟩
  | str s => exact ⟨'"', _, by rw [Json.encode], by decide, by decide⟩
  | arr xs => exact ⟨'[', _, by rw [Json.encode], by decide, by decide⟩
  | obj xs => exact ⟨'\x7b', _, by rw [Json.encode], by decide, by decide⟩

mutual

theorem Json.size_le_encode (v : Json) :
    Json.size v ≤ (Json.encode v).length := by
  cases v with
  | null => simp [Json.size, Json.encode]
  | bool b => cases b <;> simp [Json.size, Json.encode]
  | num n =>
      obtain ⟨c, cs, hc, _⟩ := encodeInt_head n
      simp [Json.size, Json.encode, hc]
  | str s => simp [Json.size, Json.encode]
  | arr xs =>
      have h := Json.sizeL_le_encodeList xs
      simp only [Json.size, Json.encode, List.length_cons, List.length_append,
        List.length_singleton]
      omega
  | obj xs =>
      have h := Json.sizeO_le_encodeObjBody xs
      simp only [Json.size, Json.encode, List.length_cons, List.length_append,
        List.length_singleton]
      omega

theorem Json.sizeL_le_encodeList (xs : JsonList) :
    Json.sizeL xs ≤ (Json.encodeList xs).length + 1 := by
  cases xs with
  | nil => simp [Json.sizeL, Json.encodeList]
  | cons x tl =>
      have hx := Json.size_le_encode x
      have hx1 := Json.size_pos x
      cases tl with
      | nil =>
          simp only [Json.sizeL, Json.encodeList]
          omega
      | cons y tl2 =>
          have ht := Json.sizeL_le_encodeList (.cons y tl2)
          simp only [Json.sizeL, Json.encodeList, List.length_append,
            List.length_cons] at ht ⊢
          omega

theorem Json.sizeO_le_encodeObjBody (xs : JsonObj) :
    Json.sizeO xs ≤ (Json.encodeObjBody xs).length + 1 := by
  cases xs with
  | nil => simp [Json.sizeO, Json.encodeObjBody]
  | cons k v tl =>
      have hv := Json.size_le_encode v
      have hv1 := Json.size_pos v
      cases tl with
      | nil =>
          simp only [Json.sizeO, Json.encodeObjBody, List.length_cons,
            List.length_append]
          omega
      | cons k2 v2 tl2 =>
          have ht := Json.sizeO_le_encodeObjBody (.cons k2 v2 tl2)
          simp only [Json.sizeO, Json.encodeObjBody, List.length_append,
            List.length_cons] at ht ⊢
          omega

end

theorem encodeList_cons_eq (x : Json) (tl : JsonList) :
    ∃ t, Json.encodeList (.cons x tl) = Json.encode x ++ t := by
  cases tl with
  | nil => exact ⟨[], (List.append_nil _).symm⟩
  | cons y tl2 => exact ⟨',' :: Json.encodeList (.cons y tl2), rfl⟩

theorem parseJson_arr_step (f : Nat) (c2 : Char) (r2 : List Char)
    (hne : ¬c2 = ']') :
    parseJson (f + 1) ('[' :: c2 :: r2) =
      match parseItems f (c2 :: r2) with
      | some p => some (.arr p.1, p.2)
      | none => none := by
  simp [parseJson, hne]

theorem parseJson_obj_step (f : Nat) (c2 : Char) (r2 : List Char)
    (hne : ¬c2 = '\x7d') :
    parseJson (f + 1) ('\x7b' :: c2 :: r2) =
      match parseMembers f (c2 :: r2) with
      | some p => some (.obj p.1, p.2)
      | none => none := by
  simp [parseJson, hne]

theorem parse_encode_all (fuel : Nat) :
    (∀ (v : Json) (rest : List Char), Json.size v ≤ fuel →
        noDigitStart rest = true →
        parseJson fuel (Json.encode v ++ rest) = some (v, rest)) ∧
    (∀ (xs : JsonList) (rest : List Char), xs ≠ .nil → Json.sizeL xs ≤ fuel →
        parseItems fuel (Json.encodeList xs ++ ']' :: rest) = some (xs, rest)) ∧
    (∀ (xs : JsonObj) (rest : List Char), xs ≠ .nil → Json.sizeO xs ≤ fuel →
        parseMembers fuel (Json.encodeObjBody xs ++ '\x7d' :: rest) =
          some (xs, rest)) := by
  induction fuel with
  | zero =>
      refine ⟨fun v rest hs _ => absurd hs (by have := Json.size_pos v; omega),
        fun xs rest _ hs => absurd hs (by have := Json.sizeL_pos xs; omega),
        fun xs rest _ hs => absurd hs (by have := Json.sizeO_pos xs; omega)⟩
  | succ f ih =>
      obtain ⟨ihV, ihL, ihO⟩ := ih
      refine ⟨?_, ?_, ?_⟩
      · intro v rest hs hrest
        cases v with
        | null => simp [Json.encode, parseJson]
        | bool b => cases b <;> simp [Json.encode, parseJson]
        | num n =>
            obtain ⟨c, cs, hc, h1, h2, h3, h4, h5, h6, _, _⟩ := encodeInt_head n
            rw [Json.encode, hc, List.cons_append]
            simp only [parseJson]
            rw [if_neg h1, if_neg h2, if_neg h3, if_neg h4, if_neg h5, if_neg h6,
              ← List.cons_append, ← hc]
            exact parseNum_encodeInt n rest hrest
        | str s =>
            rw [Json.encode]
            simp only [List.cons_append, List.append_assoc, List.singleton_append]
            simp [parseJson, parseStr_encodeStrChars]
        | arr xs =>
            cases xs with
            | nil => simp [Json.encode, Json.encodeList, parseJson]
            | cons x tl =>
                obtain ⟨t, ht⟩ := encodeList_cons_eq x tl
                obtain ⟨c2, cs2, hc2, hne2, _⟩ := encode_head x
                have hL := ihL (JsonList.cons x tl) rest
                  (fun hh => JsonList.noConfusion hh)
                  (by rw [Json.size] at hs; omega)
                rw [ht, hc2] at hL
                simp only [List.cons_append, List.append_assoc] at hL
                rw [Json.encode, ht, hc2]
                simp only [List.cons_append, List.append_assoc,
                  List.singleton_append, List.nil_append]
                rw [parseJson_arr_step f c2 _ hne2, hL]
        | obj xs =>
            cases xs with
            | nil => simp [Json.encode, Json.encodeObjBody, parseJson]
            | cons k v tl =>
                have hbody : ∃ r2, Json.encodeObjBody (JsonObj.cons k v tl) =
                    '"' :: r2 := by
                  cases tl with
                  | nil => exact ⟨_, rfl⟩
                  | cons k2 v2 tl2 => exact ⟨_, rfl⟩
                obtain ⟨r2, hr2⟩ := hbody
                have hO := ihO (JsonObj.cons k v tl) rest
                  (fun hh => JsonObj.noConfusion hh)
                  (by rw [Json.size] at hs; omega)
                rw [hr2] at hO
                simp only [List.cons_append, List.append_assoc] at hO
                rw [Json.encode, hr2]
                simp only [List.cons_append, List.append_assoc,
                  List.singleton_append, List.nil_append]
                rw [parseJson_obj_step f '"' _ (by decide), hO]
      · intro xs rest hxs hs
        cases xs with
        | nil => exact absurd rfl hxs
        | cons x tl =>
            rw [Json.sizeL] at hs
            have hmax := Nat.max_le.mp (by omega :
              max (Json.size x) (Json.sizeL tl) ≤ f)
            cases tl with
            | nil =>
                rw [Json.encodeList]
                simp only [parseItems]
                rw [ihV x (']' :: rest) hmax.1 rfl]
                simp
            | cons y tl2 =>
                rw [Json.encodeList]
                simp only [List.append_assoc, List.cons_append]
                simp only [parseItems]
                rw [ihV x (',' :: (Json.encodeList (JsonList.cons y tl2) ++
                  ']' :: rest)) hmax.1 rfl]
                simp only [reduceIte]
                rw [ihL (JsonList.cons y tl2) rest
                  (fun hh => JsonList.noConfusion hh) hmax.2]
      · intro xs rest hxs hs
        cases xs with
        | nil => exact absurd rfl hxs
        | cons k v tl =>
            rw [Json.sizeO] at hs
            have hmax := Nat.max_le.mp (by omega :
              max (Json.size v) (Json.sizeO tl) ≤ f)
            cases tl with
            | nil =>
                rw [Json.encodeObjBody]
                simp only [List.cons_append, List.append_assoc]
                simp only [parseMembers]
                rw [parseStr_encodeStrChars k (':' :: (Json.encode v ++
                  '\x7d' :: rest))]
                simp only [reduceIte]
                rw [ihV v ('\x7d' :: rest) hmax.1 rfl]
                simp
            | cons k2 v2 tl2 =>
                rw [Json.encodeObjBody]
                simp only [List.cons_append, List.append_assoc]
                simp only [parseMembers]
                rw [parseStr_encodeStrChars k (':' :: (Json.encode v ++
                  ',' :: (Json.encodeObjBody (JsonObj.cons k2 v2 tl2) ++
                    '\x7d' :: rest)))]
                simp only [reduceIte]
                rw [ihV v (',' :: (Json.encodeObjBody (JsonObj.cons k2 v2 tl2) ++
                  '\x7d' :: rest)) hmax.1 rfl]
                simp only [reduceIte]
                rw [ihO (JsonObj.cons k2 v2 tl2) rest
                  (fun hh => JsonObj.noConfusion hh) hmax.2]

/-- `json.loads(json.dumps(v))` recovers `v`: the serialization layer the
cache writes through is lossless on the modelled payload domain. -/
theorem Json.loads_encode (v : Json) : Json.loads (Json.encode v) = some v := by
  have h := (parse_encode_all ((Json.encode v).length + 1)).1 v []
    (by have := Json.size_le_encode v; omega) rfl
  rw [List.append_nil] at h
  rw [Json.loads, h]

/-! ## Cache behaviour -/

theorem SQLiteCache.set_rows (db : SQLiteCache) (k : List Char) (v : Json)
    (now : ℚ) (h : db.broken = false) :
    db.set k v now = { db with rows := ⟨k, Json.encode v, now⟩ :: db.rows.filter (fun r => !decide (r.key = k)) } := by
  rw [SQLiteCache.set, SQLiteCache.insertOrReplace, h]
  simp

theorem SQLiteCache.broken_set (db : SQLiteCache) (k : List Char) (v : Json)
    (now : ℚ) : (db.set k v now).broken = db.broken := by
  rw [SQLiteCache.set, SQLiteCache.insertOrReplace]
  cases hb : db.broken <;> simp [hb]

theorem SQLiteCache.get_set_same (db : SQLiteCache) (k : List Char) (v : Json)
    (now : ℚ) (h : db.broken = false) :
    (db.set k v now).get k = some v := by
  rw [SQLiteCache.set_rows db k v now h, SQLiteCache.get,
    SQLiteCache.selectValue]
  simp [List.find?, Json.loads_encode, h]

/-! ## Decorator loop characterization -/

theorem retryLoop_calls_all_retryable (op : Nat → Outcome α) (maxRetries : Nat)
    (backoff : ℚ) (hop : ∀ i, (op i).isRetryable = true) (k : Nat) :
    ∀ (attempt : Nat) (d : ℚ) (lastExc : Option (List Char)) (sleeps : List ℚ)
      (calls : Nat),
      (retryLoop op maxRetries backoff k attempt d lastExc sleeps calls).calls =
        calls + k := by
  induction k with
  | zero => intro attempt d lastExc sleeps calls; rfl
  | succ k ih =>
      intro attempt d lastExc sleeps calls
      have h := hop attempt
      cases hoa : op attempt with
      | success v => rw [hoa] at h; simp [Outcome.isRetryable] at h
      | fatal msg => rw [hoa] at h; simp [Outcome.isRetryable] at h
      | retryable kind msg =>
          simp only [retryLoop, hoa]
          by_cases hlt : attempt < maxRetries
          · rw [if_pos hlt, ih]
            omega
          · rw [if_neg hlt, ih]
            omega

theorem range_map_mul_backoff (d backoff : ℚ) (m : Nat) :
    (List.range (m + 1)).map (fun i => d * backoff ^ i) =
      d :: (List.range m).map fun i => d * backoff * backoff ^ i := by
  have hfe : ((fun i => d * backoff ^ i) ∘ Nat.succ) =
      fun i => d * backoff * backoff ^ i := by
    funext i
    simp only [Function.comp_apply, pow_succ]
    ring
  rw [List.range_succ_eq_map]
  simp only [List.map_cons, List.map_map, pow_zero, mul_one]
  rw [hfe]

theorem retryLoop_sleeps_generic (op : Nat → Outcome α) (maxRetries : Nat)
    (backoff : ℚ) (k : Nat) :
    ∀ (attempt : Nat) (d : ℚ) (lastExc : Option (List Char)) (sleeps : List ℚ)
      (calls : Nat),
      ∃ m, (retryLoop op maxRetries backoff k attempt d lastExc sleeps
          calls).sleeps =
        sleeps ++ (List.range m).map fun i => d * backoff ^ i := by
  induction k with
  | zero =>
      intro attempt d lastExc sleeps calls
      exact ⟨0, by simp [retryLoop]⟩
  | succ k ih =>
      intro attempt d lastExc sleeps calls
      cases hoa : op attempt with
      | success v => exact ⟨0, by simp [retryLoop, hoa]⟩
      | fatal msg => exact ⟨0, by simp [retryLoop, hoa]⟩
      | retryable kind msg =>
          simp only [retryLoop, hoa]
          by_cases hlt : attempt < maxRetries
          · rw [if_pos hlt]
            obtain ⟨m, hm⟩ := ih (attempt + 1) (d * backoff) (some msg)
              (sleeps ++ [d]) (calls + 1)
            refine ⟨m + 1, ?_⟩
            rw [hm, List.append_assoc, range_map_mul_backoff]
            rfl
          · rw [if_neg hlt]
            exact ih (attempt + 1) d (some msg) sleeps (calls + 1)

theorem retryLoop_sleeps_all_retryable (op : Nat → Outcome α)
    (maxRetries : Nat) (backoff : ℚ)
    (hop : ∀ i, (op i).isRetryable = true) (k : Nat) :
    ∀ (attempt : Nat) (d : ℚ) (lastExc : Option (List Char)) (sleeps : List ℚ)
      (calls : Nat), attempt + k = maxRetries + 1 →
      (retryLoop op maxRetries backoff k attempt d lastExc sleeps
          calls).sleeps =
        sleeps ++ (List.range (k - 1)).map fun i => d * backoff ^ i := by
  induction k with
  | zero => intro attempt d lastExc sleeps calls _; simp [retryLoop]
  | succ k ih =>
      intro attempt d lastExc sleeps calls hinv
      have h := hop attempt
      cases hoa : op attempt with
      | success v => rw [hoa] at h; simp [Outcome.isRetryable] at h
      | fatal msg => rw [hoa] at h; simp [Outcome.isRetryable] at h
      | retryable kind msg =>
          simp only [retryLoop, hoa]
          cases k with
          | zero =>
              have hge : ¬attempt < maxRetries := by omega
              rw [if_neg hge]
              simp [retryLoop]
          | succ k2 =>
              have hlt : attempt < maxRetries := by omega
              rw [if_pos hlt]
              rw [ih (attempt + 1) (d * backoff) (some msg) (sleeps ++ [d])
                (calls + 1) (by omega)]
              simp only [Nat.add_sub_cancel]
              rw [List.append_assoc, range_map_mul_backoff]
              rfl

/-! ## Search loop characterization -/

theorem GoogleBooksAPI.search_bypass (cache : SQLiteCache) (key : List Char)
    (op : Nat → GBOutcome) (maxRetries : Nat) (now : ℚ)
    (h : cacheBypassed cache key) :
    GoogleBooksAPI.search cache key op maxRetries now =
      searchLoop key now op maxRetries maxRetries 0 0 [] cache := by
  rw [GoogleBooksAPI.search]
  cases hg : SQLiteCache.get cache key with
  | none => rfl
  | some v => simp [h v hg]

theorem searchLoop_calls_all_retryable (key : List Char) (now : ℚ)
    (op : Nat → GBOutcome) (maxRetries : Nat)
    (hop : ∀ i, (op i).isRetryable = true) (k : Nat) :
    ∀ (rc calls : Nat) (sleeps : List ℚ) (cache : SQLiteCache),
      rc + k = maxRetries →
      (searchLoop key now op maxRetries k rc calls sleeps cache).calls =
        calls + k := by
  induction k with
  | zero => intro rc calls sleeps cache _; rfl
  | succ k ih =>
      intro rc calls sleeps cache hinv
      have h := hop calls
      cases hoa : op calls with
      | success items => rw [hoa] at h; simp [GBOutcome.isRetryable] at h
      | httpOther => rw [hoa] at h; simp [GBOutcome.isRetryable] at h
      | reqExcOther => rw [hoa] at h; simp [GBOutcome.isRetryable] at h
      | unexpected => rw [hoa] at h; simp [GBOutcome.isRetryable] at h
      | http429 =>
          simp only [searchLoop, hoa]
          cases k with
          | zero => rw [if_pos (by omega)]
          | succ k2 =>
              rw [if_neg (by omega), ih (rc + 1) (calls + 1) _ _ (by omega)]
              omega
      | reqExc429 =>
          simp only [searchLoop, hoa]
          cases k with
          | zero => rw [if_pos (by omega)]
          | succ k2 =>
              rw [if_neg (by omega), ih (rc + 1) (calls + 1) _ _ (by omega)]
              omega
      | timeout =>
          simp only [searchLoop, hoa]
          cases k with
          | zero => rw [if_pos (by omega)]
          | succ k2 =>
              rw [if_neg (by omega), ih (rc + 1) (calls + 1) _ _ (by omega)]
              omega

theorem searchLoop_result_all_failure (key : List Char) (now : ℚ)
    (op : Nat → GBOutcome) (maxRetries : Nat)
    (hop : ∀ i, (op i).isFailure = true) (k : Nat) :
    ∀ (rc calls : Nat) (sleeps : List ℚ) (cache : SQLiteCache),
      (searchLoop key now op maxRetries k rc calls sleeps cache).result =
        Json.arr .nil := by
  induction k with
  | zero => intro rc calls sleeps cache; rfl
  | succ k ih =>
      intro rc calls sleeps cache
      have h := hop calls
      cases hoa : op calls with
      | success items => rw [hoa] at h; simp [GBOutcome.isFailure] at h
      | httpOther => simp [searchLoop, hoa]
      | reqExcOther => simp [searchLoop, hoa]
      | unexpected => simp [searchLoop, hoa]
      | http429 =>
          simp only [searchLoop, hoa]
          by_cases hc : maxRetries ≤ rc + 1
          · rw [if_pos hc]
          · rw [if_neg hc]
            exact ih (rc + 1) (calls + 1) _ _
      | reqExc429 =>
          simp only [searchLoop, hoa]
          by_cases hc : maxRetries ≤ rc + 1
          · rw [if_pos hc]
          · rw [if_neg hc]
            exact ih (rc + 1) (calls + 1) _ _
      | timeout =>
          simp only [searchLoop, hoa]
          by_cases hc : maxRetries ≤ rc + 1
          · rw [if_pos hc]
          · rw [if_neg hc]
            exact ih (rc + 1) (calls + 1) _ _

theorem range_map_pow_two (a m : Nat) :
    (List.range (m + 1)).map (fun i => (2 : ℚ) ^ (a + 1 + i)) =
      (2 : ℚ) ^ (a + 1) :: (List.range m).map fun i =>
        (2 : ℚ) ^ (a + 1 + 1 + i) := by
  have hfe : ((fun i => (2 : ℚ) ^ (a + 1 + i)) ∘ Nat.succ) =
      fun i => (2 : ℚ) ^ (a + 1 + 1 + i) := by
    funext i
    simp only [Function.comp_apply]
    congr 1
    omega
  rw [List.range_succ_eq_map]
  simp only [List.map_cons, List.map_map, Nat.add_zero]
  rw [hfe]

theorem searchLoop_sleeps_all_429 (key : List Char) (now : ℚ)
    (op : Nat → GBOutcome) (maxRetries : Nat)
    (hop : ∀ i, (op i).is429 = true) (k : Nat) :
    ∀ (rc calls : Nat) (sleeps : List ℚ) (cache : SQLiteCache),
      rc + k = maxRetries →
      (searchLoop key now op maxRetries k rc calls sleeps cache).sleeps =
        sleeps ++ (List.range (k - 1)).map fun i => (2 : ℚ) ^ (rc + 1 + i) := by
  induction k with
  | zero => intro rc calls sleeps cache _; simp [searchLoop]
  | succ k ih =>
      intro rc calls sleeps cache hinv
      have h := hop calls
      cases hoa : op calls with
      | success items => rw [hoa] at h; simp [GBOutcome.is429] at h
      | httpOther => rw [hoa] at h; simp [GBOutcome.is429] at h
      | reqExcOther => rw [hoa] at h; simp [GBOutcome.is429] at h
      | unexpected => rw [hoa] at h; simp [GBOutcome.is429] at h
      | timeout => rw [hoa] at h; simp [GBOutcome.is429] at h
      | http429 =>
          simp only [searchLoop, hoa]
          cases k with
          | zero =>
              rw [if_pos (by omega)]
              simp
          | succ k2 =>
              rw [if_neg (by omega),
                ih (rc + 1) (calls + 1) _ _ (by omega)]
              simp only [Nat.add_sub_cancel, Nat.succ_sub_one]
              rw [List.append_assoc, range_map_pow_two]
              rfl
      | reqExc429 =>
          simp only [searchLoop, hoa]
          cases k with
          | zero =>
              rw [if_pos (by omega)]
              simp
          | succ k2 =>
              rw [if_neg (by omega),
                ih (rc + 1) (calls + 1) _ _ (by omega)]
              simp only [Nat.add_sub_cancel, Nat.succ_sub_one]
              rw [List.append_assoc, range_map_pow_two]
              rfl

theorem searchLoop_sleeps_all_timeout (key : List Char) (now : ℚ)
    (op : Nat → GBOutcome) (maxRetries : Nat)
    (hop : ∀ i, op i = GBOutcome.timeout) (k : Nat) :
    ∀ (rc calls : Nat) (sleeps : List ℚ) (cache : SQLiteCache),
      rc + k = maxRetries →
      (searchLoop key now op maxRetries k rc calls sleeps cache).sleeps =
        sleeps ++ List.replicate (k - 1) (1 : ℚ) := by
  induction k with
  | zero => intro rc calls sleeps cache _; simp [searchLoop]
  | succ k ih =>
      intro rc calls sleeps cache hinv
      simp only [searchLoop, hop calls]
      cases k with
      | zero =>
          rw [if_pos (by omega)]
          simp
      | succ k2 =>
          rw [if_neg (by omega), ih (rc + 1) (calls + 1) _ _ (by omega)]
          simp only [Nat.add_sub_cancel, Nat.succ_sub_one]
          rw [List.append_assoc]
          rfl

/-! ## Cache invariants -/

theorem length_filter_not_add {α : Type} (l : List α) (p : α → Bool) :
    (l.filter fun a => !p a).length + (l.filter p).length = l.length := by
  induction l with
  | nil => rfl
  | cons a l ih =>
      cases hp : p a <;> simp [List.filter_cons, hp] <;> omega

theorem nodupKeys_set (db : SQLiteCache) (k : List Char) (v : Json) (now : ℚ)
    (h : nodupKeys db) : nodupKeys (db.set k v now) := by
  cases hb : db.broken with
  | true =>
      simp only [SQLiteCache.set, SQLiteCache.insertOrReplace, hb, if_true]
      exact h
  | false =>
      rw [SQLiteCache.set_rows db k v now hb, nodupKeys]
      simp only [List.map_cons]
      refine List.Nodup.cons ?_ ?_
      · intro hmem
        obtain ⟨r, hr, hrk⟩ := List.mem_map.mp hmem
        have := (List.mem_filter.mp hr).2
        rw [hrk] at this
        simp at this
      · exact List.Nodup.sublist
          (List.Sublist.map _ (List.filter_sublist db.rows)) h

theorem nodupKeys_applyOp (db : SQLiteCache) (o : CacheOp) (h : nodupKeys db) :
    nodupKeys (applyOp db o) := by
  cases o with
  | set k v now => exact nodupKeys_set db k v now h
  | clear =>
      rw [applyOp, SQLiteCache.clear]
      cases hb : db.broken with
      | true =>
          rw [if_pos rfl]
          exact h
      | false =>
          rw [if_neg (by decide)]
          simp [nodupKeys]
  | clearOld now =>
      rw [applyOp, SQLiteCache.clear_old_entries]
      cases hb : db.broken with
      | true =>
          rw [if_pos rfl]
          exact h
      | false =>
          rw [if_neg (by decide)]
          exact List.Nodup.sublist
            (List.Sublist.map _ (List.filter_sublist db.rows)) h

theorem nodupKeys_applyOps (ops : List CacheOp) (db : SQLiteCache)
    (h : nodupKeys db) : nodupKeys (applyOps ops db) := by
  induction ops generalizing db with
  | nil => exact h
  | cons o ops ih => exact ih (applyOp db o) (nodupKeys_applyOp db o h)

theorem clear_old_entries_spec (db : SQLiteCache) (now : ℚ)
    (h : db.broken = false) :
    SQLiteCache.clear_old_entries db now = Except.ok
      ({ db with rows := db.rows.filter fun r =>
          !decide (r.timestamp < now - db.maxAgeHours * 3600) },
        (db.rows.filter fun r =>
          decide (r.timestamp < now - db.maxAgeHours * 3600)).length) := by
  rw [SQLiteCache.clear_old_entries, h]
  simp

/-! ## Claims -/

/-- Claim C5 (confirmed): for every key and every JSON-serializable value,
`SQLiteCache.set(k, v)` followed by `SQLiteCache.get(k)` returns a value
structurally equal to `v` after the round-trip through `json.dumps` /
`json.loads`, provided the storage layer is functioning. -/
theorem C5_cache_roundtrip (db : SQLiteCache) (k : List Char) (v : Json)
    (now : ℚ) (h : db.broken = false) :
    (db.set k v now).get k = some v :=
  SQLiteCache.get_set_same db k v now h

/-- Witness for C5 at a concrete cache, key and nested JSON value. -/
theorem C5_cache_roundtrip_witness :
    ((⟨[], false, 24⟩ : SQLiteCache).set ['a'] (Json.obj (.cons ['t']
        (.str ['x', '"']) (.cons ['n'] (.num (-7))
          (.cons ['l'] (.arr (.cons .null (.cons (.bool true) .nil)))
            .nil)))) 5).get ['a'] =
      some (Json.obj (.cons ['t'] (.str ['x', '"']) (.cons ['n'] (.num (-7))
        (.cons ['l'] (.arr (.cons .null (.cons (.bool true) .nil)))
          .nil)))) :=
  C5_cache_roundtrip ⟨[], false, 24⟩ ['a'] _ 5 rfl

/-- Claim C6 (confirmed): `set(k, v1); set(k, v2); get(k)` returns `v2`
(last write wins), and the cache holds at most one row per key after any
sequence of operations starting from a state with distinct keys. -/
theorem C6_overwrite_last_write_wins (db : SQLiteCache) (k : List Char)
    (v1 v2 : Json) (t1 t2 : ℚ) (ops : List CacheOp) (db0 : SQLiteCache)
    (h : db.broken = false) (h0 : nodupKeys db0) :
    ((db.set k v1 t1).set k v2 t2).get k = some v2 ∧
      nodupKeys (applyOps ops db0) := by
  constructor
  · have hb : (db.set k v1 t1).broken = false := by
      rw [SQLiteCache.broken_set]
      exact h
    exact SQLiteCache.get_set_same _ k v2 t2 hb
  · exact nodupKeys_applyOps ops db0 h0

/-- Witness for C6: two writes to the same key then a read, and a mixed
operation sequence, on concrete states. -/
theorem C6_overwrite_last_write_wins_witness :
    (((⟨[], false, 24⟩ : SQLiteCache).set ['k'] (Json.num 1) 0).set ['k']
        (Json.num 2) 1).get ['k'] = some (Json.num 2) ∧
      nodupKeys (applyOps [CacheOp.set ['a'] (Json.num 3) 0,
        CacheOp.set ['a'] (Json.num 4) 1, CacheOp.clearOld 100000,
        CacheOp.clear] ⟨[], false, 24⟩) :=
  C6_overwrite_last_write_wins ⟨[], false, 24⟩ ['k'] (Json.num 1) (Json.num 2)
    0 1 _ ⟨[], false, 24⟩ rfl (by simp [nodupKeys])

/-- Claim C7 (confirmed): `clear_old_entries` run at time `now` removes
exactly the rows whose `timestamp` lies strictly before
`now - max_age_hours * 3600`, keeps every other row unchanged, and returns
the number of rows it removed. -/
theorem C7_ttl_eviction (db : SQLiteCache) (now : ℚ) (h : db.broken = false) :
    ∃ db2 count,
      SQLiteCache.clear_old_entries db now = Except.ok (db2, count) ∧
      (∀ r ∈ db.rows, r.timestamp < now - db.maxAgeHours * 3600 →
        r ∉ db2.rows) ∧
      (∀ r ∈ db.rows, ¬r.timestamp < now - db.maxAgeHours * 3600 →
        r ∈ db2.rows) ∧
      (∀ r ∈ db2.rows, r ∈ db.rows) ∧
      count = (db.rows.filter fun r =>
        decide (r.timestamp < now - db.maxAgeHours * 3600)).length ∧
      db2.rows.length + count = db.rows.length := by
  refine ⟨_, _, clear_old_entries_spec db now h, ?_, ?_, ?_, rfl, ?_⟩
  · intro r hr hlt hmem
    have := (List.mem_filter.mp hmem).2
    simp only [Bool.not_eq_true', decide_eq_false_iff_not] at this
    exact this hlt
  · intro r hr hge
    exact List.mem_filter.mpr ⟨hr, by simp [hge]⟩
  · intro r hr
    exact (List.mem_filter.mp hr).1
  · exact length_filter_not_add db.rows _

/-- Witness for C7: eviction on a concrete two-row cache with TTL 24h at
time 100000: the old row (timestamp 0) goes, the fresh one stays. -/
theorem C7_ttl_eviction_witness :
    ∃ db2 count,
      SQLiteCache.clear_old_entries
        ⟨[⟨['a'], ['1'], 0⟩, ⟨['b'], ['2'], 99999⟩], false, 24⟩ 100000 =
        Except.ok (db2, count) ∧
      (∀ r ∈ [(⟨['a'], ['1'], 0⟩ : CacheRow), ⟨['b'], ['2'], 99999⟩],
        r.timestamp < 100000 - (24 : ℚ) * 3600 → r ∉ db2.rows) ∧
      (∀ r ∈ [(⟨['a'], ['1'], 0⟩ : CacheRow), ⟨['b'], ['2'], 99999⟩],
        ¬r.timestamp < 100000 - (24 : ℚ) * 3600 → r ∈ db2.rows) ∧
      (∀ r ∈ db2.rows, r ∈ [(⟨['a'], ['1'], 0⟩ : CacheRow),
        ⟨['b'], ['2'], 99999⟩]) ∧
      count = ([(⟨['a'], ['1'], 0⟩ : CacheRow), ⟨['b'], ['2'], 99999⟩].filter
        fun r => decide (r.timestamp < 100000 - (24 : ℚ) * 3600)).length ∧
      db2.rows.length + count = 2 :=
  C7_ttl_eviction ⟨[⟨['a'], ['1'], 0⟩, ⟨['b'], ['2'], 99999⟩], false, 24⟩
    100000 rfl

/-- Claim C8 (counterexample): `SQLiteCache.clear` has no exception
handler, so on a broken storage layer the fault is surfaced to the caller
as a raised exception, contradicting the claim that no cache operation
ever surfaces a storage-layer fault. -/
theorem C8_counterexample :
    SQLiteCache.clear ⟨[], true, 24⟩ = Except.error ['d', 'b'] := rfl

/-- Claim C8 (amended): `get` and `set` swallow storage faults — `get`
returns `None` on a missing key, on an undecodable payload and on a broken
storage layer, and `set` returns normally leaving the state unchanged —
but `clear` and `clear_old_entries` have no handler and propagate the
storage fault. -/
theorem C8_amended (db : SQLiteCache) (k : List Char) (v : Json) (now : ℚ)
    (rows : List CacheRow) (raw : List Char) (t maxAge : ℚ)
    (hraw : Json.loads raw = none) (hb : db.broken = true) :
    SQLiteCache.get ⟨[], false, maxAge⟩ k = none ∧
    SQLiteCache.get ⟨⟨k, raw, t⟩ :: rows, false, maxAge⟩ k = none ∧
    SQLiteCache.get db k = none ∧
    db.set k v now = db ∧
    SQLiteCache.clear db = Except.error ['d', 'b'] ∧
    SQLiteCache.clear_old_entries db now = Except.error ['d', 'b'] := by
  refine ⟨?_, ?_, ?_, ?_, ?_, ?_⟩
  · rw [SQLiteCache.get, SQLiteCache.selectValue]
    simp
  · rw [SQLiteCache.get, SQLiteCache.selectValue]
    simp [List.find?, hraw]
  · rw [SQLiteCache.get, SQLiteCache.selectValue, hb]
    simp
  · rw [SQLiteCache.set, SQLiteCache.insertOrReplace, hb]
    simp
  · rw [SQLiteCache.clear, hb]
    simp
  · rw [SQLiteCache.clear_old_entries, hb]
    simp

/-- Witness for C8 (amended) at a concrete broken cache, key and an
undecodable stored payload. -/
theorem C8_amended_witness :
    SQLiteCache.get ⟨[], false, 24⟩ ['k'] = none ∧
    SQLiteCache.get ⟨[⟨['k'], ['x'], 0⟩], false, 24⟩ ['k'] = none ∧
    SQLiteCache.get ⟨[], true, 24⟩ ['k'] = none ∧
    SQLiteCache.set ⟨[], true, 24⟩ ['k'] (Json.num 1) 0 = ⟨[], true, 24⟩ ∧
    SQLiteCache.clear ⟨[], true, 24⟩ = Except.error ['d', 'b'] ∧
    SQLiteCache.clear_old_entries ⟨[], true, 24⟩ 0 =
      Except.error ['d', 'b'] :=
  C8_amended ⟨[], true, 24⟩ ['k'] (Json.num 1) 0 [] ['x'] 0 24 rfl rfl

/-- Claim C1 (counterexample): with `Config.MAX_RETRIES = 3`, a
`GoogleBooksAPI.search` whose every attempt fails with HTTP 429 performs
exactly 3 requests, not `MAX_RETRIES + 1 = 4` as the claim requires of
both retry implementations. -/
theorem C1_counterexample :
    (GoogleBooksAPI.search ⟨[], false, 24⟩ ['q'] (fun _ => GBOutcome.http429)
        Config.MAX_RETRIES 0).calls = Config.MAX_RETRIES ∧
      ¬(GoogleBooksAPI.search ⟨[], false, 24⟩ ['q']
          (fun _ => GBOutcome.http429) Config.MAX_RETRIES 0).calls =
        Config.MAX_RETRIES + 1 := by
  constructor
  · rfl
  · decide

/-- Claim C1 (amended): an operation failing with a retryable error on
every attempt is invoked exactly `max_retries + 1` times by the
`retry_on_failure` decorator, but exactly `Config.MAX_RETRIES` times by
`GoogleBooksAPI.search`. -/
theorem C1_amended (op : Nat → Outcome α) (maxRetries : Nat)
    (delay backoff : ℚ) (gop : Nat → GBOutcome) (cache : SQLiteCache)
    (key : List Char) (now : ℚ)
    (hop : ∀ i, (op i).isRetryable = true)
    (hgop : ∀ i, (gop i).isRetryable = true)
    (hmiss : cacheBypassed cache key) :
    (retry_on_failure op maxRetries delay backoff).calls = maxRetries + 1 ∧
    (GoogleBooksAPI.search cache key gop Config.MAX_RETRIES now).calls =
      Config.MAX_RETRIES := by
  constructor
  · rw [retry_on_failure,
      retryLoop_calls_all_retryable op maxRetries backoff hop]
    omega
  · rw [GoogleBooksAPI.search_bypass cache key gop Config.MAX_RETRIES now
      hmiss, searchLoop_calls_all_retryable key now gop Config.MAX_RETRIES
      hgop Config.MAX_RETRIES 0 0 [] cache (by omega)]
    omega

/-- Witness for C1 (amended): always-rate-limited operations against the
decorator with its defaults and against the search loop on an empty
cache. -/
theorem C1_amended_witness :
    (retry_on_failure
        (fun _ => Outcome.retryable ErrKind.rateLimit [] : Nat → Outcome Unit)
        3 1 2).calls = 3 + 1 ∧
    (GoogleBooksAPI.search ⟨[], false, 24⟩ ['q'] (fun _ => GBOutcome.http429)
        Config.MAX_RETRIES 0).calls = Config.MAX_RETRIES :=
  C1_amended (fun _ => Outcome.retryable ErrKind.rateLimit []) 3 1 2
    (fun _ => GBOutcome.http429) ⟨[], false, 24⟩ ['q'] 0
    (fun _ => rfl) (fun _ => rfl)
    (fun v hv => by
      have h0 : SQLiteCache.get ⟨[], false, 24⟩ ['q'] = none := rfl
      rw [h0] at hv
      exact Option.noConfusion hv)

/-- Claim C2 (counterexample): in the `retry_on_failure` decorator a
rate-limit failure is retried on the generic schedule: with
`max_retries = 1, delay = 1, backoff = 2` the single sleep before the
first retry is 1 second, not the claimed `2 ^ 1 = 2` seconds. -/
theorem C2_counterexample :
    (retry_on_failure
        (fun _ => Outcome.retryable ErrKind.rateLimit [] : Nat → Outcome Unit)
        1 1 2).sleeps = [(1 : ℚ)] ∧ ¬(1 : ℚ) = 2 ^ 1 := by
  constructor
  · rfl
  · norm_num

/-- Claim C2 (amended): only `GoogleBooksAPI.search` uses the
power-of-two schedule, and only for 429 failures — the delay before its
i-th retry is `2 ^ i` seconds; its timeout failures sleep a fixed 1 second
before each retry; and the `retry_on_failure` decorator retries every
retryable failure, rate limits included, on the generic
`delay * backoff ^ i` schedule. -/
theorem C2_amended (op : Nat → Outcome α) (maxRetries : Nat)
    (delay backoff : ℚ) (g429 gtime : Nat → GBOutcome) (c1 c2 : SQLiteCache)
    (k1 k2 : List Char) (n1 n2 : ℚ)
    (hop : ∀ i, (op i).isRetryable = true)
    (h429 : ∀ i, (g429 i).is429 = true)
    (htime : ∀ i, gtime i = GBOutcome.timeout)
    (hm1 : cacheBypassed c1 k1) (hm2 : cacheBypassed c2 k2) :
    (retry_on_failure op maxRetries delay backoff).sleeps =
      (List.range maxRetries).map (fun i => delay * backoff ^ i) ∧
    (GoogleBooksAPI.search c1 k1 g429 maxRetries n1).sleeps =
      (List.range (maxRetries - 1)).map (fun i => (2 : ℚ) ^ (i + 1)) ∧
    (GoogleBooksAPI.search c2 k2 gtime maxRetries n2).sleeps =
      List.replicate (maxRetries - 1) (1 : ℚ) := by
  refine ⟨?_, ?_, ?_⟩
  · rw [retry_on_failure,
      retryLoop_sleeps_all_retryable op maxRetries backoff hop
        (maxRetries + 1) 0 delay none [] 0 (by omega)]
    simp
  · rw [GoogleBooksAPI.search_bypass c1 k1 g429 maxRetries n1 hm1,
      searchLoop_sleeps_all_429 k1 n1 g429 maxRetries h429 maxRetries
        0 0 [] c1 (by omega)]
    have hfe : (fun i => (2 : ℚ) ^ (0 + 1 + i)) =
        fun i => (2 : ℚ) ^ (i + 1) := by
      funext i
      congr 1
      omega
    rw [hfe]
    simp
  · rw [GoogleBooksAPI.search_bypass c2 k2 gtime maxRetries n2 hm2,
      searchLoop_sleeps_all_timeout k2 n2 gtime maxRetries htime maxRetries
        0 0 [] c2 (by omega)]
    simp

/-- Witness for C2 (amended): all three schedules at
`max_retries = Config.MAX_RETRIES = 3` with the decorator defaults
`delay = 1, backoff = 2`, on empty caches. -/
theorem C2_amended_witness :
    (retry_on_failure
        (fun _ => Outcome.retryable ErrKind.rateLimit [] : Nat → Outcome Unit)
        3 1 2).sleeps = (List.range 3).map (fun i => 1 * 2 ^ i) ∧
    (GoogleBooksAPI.search ⟨[], false, 24⟩ ['q'] (fun _ => GBOutcome.http429)
        3 0).sleeps = (List.range (3 - 1)).map (fun i => (2 : ℚ) ^ (i + 1)) ∧
    (GoogleBooksAPI.search ⟨[], false, 24⟩ ['q'] (fun _ => GBOutcome.timeout)
        3 0).sleeps = List.replicate (3 - 1) (1 : ℚ) :=
  C2_amended (fun _ => Outcome.retryable ErrKind.rateLimit []) 3 1 2
    (fun _ => GBOutcome.http429) (fun _ => GBOutcome.timeout)
    ⟨[], false, 24⟩ ⟨[], false, 24⟩ ['q'] ['q'] 0 0
    (fun _ => rfl) (fun _ => rfl) (fun _ => rfl)
    (fun v hv => by
      have h0 : SQLiteCache.get ⟨[], false, 24⟩ ['q'] = none := rfl
      rw [h0] at hv
      exact Option.noConfusion hv)
    (fun v hv => by
      have h0 : SQLiteCache.get ⟨[], false, 24⟩ ['q'] = none := rfl
      rw [h0] at hv
      exact Option.noConfusion hv)

/-- Claim C3 (confirmed): in every run of the `retry_on_failure` decorator
with `backoff >= 1` (and a nonnegative initial delay, as in every use in
the source), the i-th slept delay equals `delay * backoff ^ i` and the
sequence of delays is non-decreasing. -/
theorem C3_backoff_monotonic (op : Nat → Outcome α) (maxRetries : Nat)
    (delay backoff : ℚ) (hb : 1 ≤ backoff) (hd : 0 ≤ delay) :
    (∀ i, i < (retry_on_failure op maxRetries delay backoff).sleeps.length →
      (retry_on_failure op maxRetries delay backoff).sleeps.getD i 0 =
        delay * backoff ^ i) ∧
    (∀ i j, i ≤ j →
      j < (retry_on_failure op maxRetries delay backoff).sleeps.length →
      (retry_on_failure op maxRetries delay backoff).sleeps.getD i 0 ≤
        (retry_on_failure op maxRetries delay backoff).sleeps.getD j 0) := by
  obtain ⟨m, hm⟩ := retryLoop_sleeps_generic op maxRetries backoff
    (maxRetries + 1) 0 delay none [] 0
  have hs : (retry_on_failure op maxRetries delay backoff).sleeps =
      (List.range m).map fun i => delay * backoff ^ i := by
    rw [retry_on_failure, hm]
    simp
  have key : ∀ i,
      i < (retry_on_failure op maxRetries delay backoff).sleeps.length →
      (retry_on_failure op maxRetries delay backoff).sleeps.getD i 0 =
        delay * backoff ^ i := by
    intro i hi
    rw [hs] at hi ⊢
    have hi2 : i < m := by simpa using hi
    rw [List.getD_eq_getElem _ _ hi]
    simp
  refine ⟨key, fun i j hij hj => ?_⟩
  rw [key i (lt_of_le_of_lt hij hj), key j hj]
  exact mul_le_mul_of_nonneg_left (pow_le_pow_right₀ hb hij) hd

/-- Witness for C3 at the decorator defaults `max_retries = 3, delay = 1,
backoff = 2` under an always-failing operation: the second delay is
`1 * 2 ^ 1` and the first delay is at most the third. -/
theorem C3_backoff_monotonic_witness :
    ((retry_on_failure
        (fun _ => Outcome.retryable ErrKind.rateLimit [] : Nat → Outcome Unit)
        3 1 2).sleeps.getD 1 0 = 1 * 2 ^ 1) ∧
    ((retry_on_failure
        (fun _ => Outcome.retryable ErrKind.rateLimit [] : Nat → Outcome Unit)
        3 1 2).sleeps.getD 0 0 ≤
      (retry_on_failure
        (fun _ => Outcome.retryable ErrKind.rateLimit [] : Nat → Outcome Unit)
        3 1 2).sleeps.getD 2 0) :=
  ⟨(C3_backoff_monotonic (fun _ => Outcome.retryable ErrKind.rateLimit [])
      3 1 2 (by norm_num) (by norm_num)).1 1 (by decide),
    (C3_backoff_monotonic (fun _ => Outcome.retryable ErrKind.rateLimit [])
      3 1 2 (by norm_num) (by norm_num)).2 0 2 (by omega) (by decide)⟩

/-- Claim C4 (confirmed): an operation whose first attempt fails with a
non-retryable error is invoked exactly once, sleeps nothing, and the call
fails immediately — the decorator re-raises the exception, and
`GoogleBooksAPI.search` returns `[]` at once. -/
theorem C4_nonretryable_short_circuit (op : Nat → Outcome α)
    (maxRetries : Nat) (delay backoff : ℚ) (msg : List Char)
    (gop : Nat → GBOutcome) (cache : SQLiteCache) (key : List Char)
    (now : ℚ) (gmax : Nat) (hgmax : 1 ≤ gmax)
    (hop : op 0 = Outcome.fatal msg)
    (hgf : (gop 0).isFailure = true) (hgr : (gop 0).isRetryable = false)
    (hmiss : cacheBypassed cache key) :
    ((retry_on_failure op maxRetries delay backoff).calls = 1 ∧
      (retry_on_failure op maxRetries delay backoff).sleeps = [] ∧
      (retry_on_failure op maxRetries delay backoff).outcome =
        RetryOutcome.reraised msg) ∧
    ((GoogleBooksAPI.search cache key gop gmax now).calls = 1 ∧
      (GoogleBooksAPI.search cache key gop gmax now).sleeps = [] ∧
      (GoogleBooksAPI.search cache key gop gmax now).result =
        Json.arr .nil) := by
  constructor
  · rw [retry_on_failure]
    simp [retryLoop, hop]
  · rw [GoogleBooksAPI.search_bypass cache key gop gmax now hmiss]
    cases gmax with
    | zero => omega
    | succ g =>
        cases hoa : gop 0 with
        | success items => rw [hoa] at hgf; simp [GBOutcome.isFailure] at hgf
        | http429 => rw [hoa] at hgr; simp [GBOutcome.isRetryable] at hgr
        | reqExc429 => rw [hoa] at hgr; simp [GBOutcome.isRetryable] at hgr
        | timeout => rw [hoa] at hgr; simp [GBOutcome.isRetryable] at hgr
        | httpOther => simp [searchLoop, hoa]
        | reqExcOther => simp [searchLoop, hoa]
        | unexpected => simp [searchLoop, hoa]

/-- Witness for C4: a first-call unexpected exception under the decorator
defaults, and a first-call non-429 HTTP error under the search loop with
`Config.MAX_RETRIES = 3`, on an empty cache. -/
theorem C4_nonretryable_short_circuit_witness :
    (((retry_on_failure (fun _ => Outcome.fatal ['e'] : Nat → Outcome Unit)
        3 1 2).calls = 1 ∧
      (retry_on_failure (fun _ => Outcome.fatal ['e'] : Nat → Outcome Unit)
        3 1 2).sleeps = [] ∧
      (retry_on_failure (fun _ => Outcome.fatal ['e'] : Nat → Outcome Unit)
        3 1 2).outcome = RetryOutcome.reraised ['e']) ∧
    ((GoogleBooksAPI.search ⟨[], false, 24⟩ ['q']
        (fun _ => GBOutcome.httpOther) 3 0).calls = 1 ∧
      (GoogleBooksAPI.search ⟨[], false, 24⟩ ['q']
        (fun _ => GBOutcome.httpOther) 3 0).sleeps = [] ∧
      (GoogleBooksAPI.search ⟨[], false, 24⟩ ['q']
        (fun _ => GBOutcome.httpOther) 3 0).result = Json.arr .nil)) :=
  C4_nonretryable_short_circuit (fun _ => Outcome.fatal ['e']) 3 1 2 ['e']
    (fun _ => GBOutcome.httpOther) ⟨[], false, 24⟩ ['q'] 0 3 (by omega)
    rfl rfl rfl
    (fun v hv => by
      have h0 : SQLiteCache.get ⟨[], false, 24⟩ ['q'] = none := rfl
      rw [h0] at hv
      exact Option.noConfusion hv)

/-- Claim C9 (confirmed): when the cache does not short-circuit the call
and every attempt fails — whether by retryable errors until exhaustion or
by a non-retryable/unexpected error — `GoogleBooksAPI.search` returns the
empty list.  The embedding is a total function into `SearchResult`: every
`except` clause of the source returns, so no exception reaches the
caller. -/
theorem C9_fail_soft (cache : SQLiteCache) (key : List Char)
    (op : Nat → GBOutcome) (maxRetries : Nat) (now : ℚ)
    (hmiss : cacheBypassed cache key)
    (hop : ∀ i, (op i).isFailure = true) :
    (GoogleBooksAPI.search cache key op maxRetries now).result =
      Json.arr .nil := by
  rw [GoogleBooksAPI.search_bypass cache key op maxRetries now hmiss]
  exact searchLoop_result_all_failure key now op maxRetries hop maxRetries
    0 0 [] cache

/-- Witness for C9: a run on an empty cache that times out twice and then
hits an unexpected error. -/
theorem C9_fail_soft_witness :
    (GoogleBooksAPI.search ⟨[], false, 24⟩ ['q']
        (fun i => match i with
          | 0 => GBOutcome.timeout
          | 1 => GBOutcome.timeout
          | _ => GBOutcome.unexpected) 3 0).result = Json.arr .nil :=
  C9_fail_soft ⟨[], false, 24⟩ ['q'] _ 3 0
    (fun v hv => by
      have h0 : SQLiteCache.get ⟨[], false, 24⟩ ['q'] = none := rfl
      rw [h0] at hv
      exact Option.noConfusion hv)
    (fun i => by
      match i with
      | 0 => rfl
      | 1 => rfl
      | n + 2 => rfl)

/-- Claim C10 (confirmed): a cached falsy value — in particular a stored
empty list — is treated as a miss by the `if cached := self.cache.get(...)`
checks: `GoogleBooksAPI.search` re-invokes the HTTP request and overwrites
the entry with the fresh result, and `get_captions` re-invokes the OpenAI
call and overwrites the entry, so the stored empty value is never
returned. -/
theorem C10_falsy_cached_refetch (db : SQLiteCache) (gkey ckey : List Char)
    (items : List BItem) (gop : Nat → GBOutcome) (g : Nat)
    (t1 t2 n1 n2 : ℚ) (lines : List (List Char)) (maxCaptions : Nat)
    (h : db.broken = false) (hg : gop 0 = GBOutcome.success items) :
    ((GoogleBooksAPI.search (db.set gkey (Json.arr .nil) t1) gkey gop (g + 1)
        n1).calls = 1 ∧
      (GoogleBooksAPI.search (db.set gkey (Json.arr .nil) t1) gkey gop (g + 1)
        n1).result = Json.arr (toJsonList (processItems items)) ∧
      ((GoogleBooksAPI.search (db.set gkey (Json.arr .nil) t1) gkey gop (g + 1)
        n1).cache).get gkey =
        some (Json.arr (toJsonList (processItems items)))) ∧
    ((AIRecommendationEngine.get_captions (db.set ckey (Json.arr .nil) t2)
        ckey maxCaptions (AIOutcome.success lines) n2).1 =
      Json.arr (toJsonList ((lines.take maxCaptions).map Json.str)) ∧
      ((AIRecommendationEngine.get_captions (db.set ckey (Json.arr .nil) t2)
        ckey maxCaptions (AIOutcome.success lines) n2).2).get ckey =
        some (Json.arr (toJsonList ((lines.take maxCaptions).map Json.str)))) := by
  have hdb1 : (db.set gkey (Json.arr .nil) t1).broken = false := by
    rw [SQLiteCache.broken_set]
    exact h
  have hdb2 : (db.set ckey (Json.arr .nil) t2).broken = false := by
    rw [SQLiteCache.broken_set]
    exact h
  have hget1 : (db.set gkey (Json.arr .nil) t1).get gkey =
      some (Json.arr .nil) := SQLiteCache.get_set_same db gkey _ t1 h
  have hget2 : (db.set ckey (Json.arr .nil) t2).get ckey =
      some (Json.arr .nil) := SQLiteCache.get_set_same db ckey _ t2 h
  have hsearch : GoogleBooksAPI.search (db.set gkey (Json.arr .nil) t1) gkey
      gop (g + 1) n1 =
      ⟨Json.arr (toJsonList (processItems items)), 1, [],
        (db.set gkey (Json.arr .nil) t1).set gkey
          (Json.arr (toJsonList (processItems items))) n1⟩ := by
    rw [GoogleBooksAPI.search, hget1]
    simp only [Json.truthy, if_false, Bool.false_eq_true]
    simp only [searchLoop, hg]
  have hcap : AIRecommendationEngine.get_captions
      (db.set ckey (Json.arr .nil) t2) ckey maxCaptions
      (AIOutcome.success lines) n2 =
      (Json.arr (toJsonList ((lines.take maxCaptions).map Json.str)),
        (db.set ckey (Json.arr .nil) t2).set ckey
          (Json.arr (toJsonList ((lines.take maxCaptions).map Json.str)))
          n2) := by
    rw [AIRecommendationEngine.get_captions, hget2]
    simp only [Json.truthy, if_false, Bool.false_eq_true]
    simp only [AIRecommendationEngine.captionsBody]
  refine ⟨⟨?_, ?_, ?_⟩, ?_, ?_⟩
  · rw [hsearch]
  · rw [hsearch]
  · rw [hsearch]
    exact SQLiteCache.get_set_same _ gkey _ n1 hdb1
  · rw [hcap]
  · rw [hcap]
    exact SQLiteCache.get_set_same _ ckey _ n2 hdb2

/-- Witness for C10: a stored empty list under both keys, a successful
response with one valid-cover item, and a two-line completion. -/
theorem C10_falsy_cached_refetch_witness :
    ((GoogleBooksAPI.search ((⟨[], false, 24⟩ : SQLiteCache).set ['g']
        (Json.arr .nil) 0) ['g']
        (fun _ => GBOutcome.success [⟨['h','t','t','p',':','/','/','c','o','v','e','r'],
          Json.str ['b']⟩]) (2 + 1) 1).calls = 1 ∧
      (GoogleBooksAPI.search ((⟨[], false, 24⟩ : SQLiteCache).set ['g']
        (Json.arr .nil) 0) ['g']
        (fun _ => GBOutcome.success [⟨['h','t','t','p',':','/','/','c','o','v','e','r'],
          Json.str ['b']⟩]) (2 + 1) 1).result =
        Json.arr (toJsonList (processItems
          [⟨['h','t','t','p',':','/','/','c','o','v','e','r'], Json.str ['b']⟩])) ∧
      ((GoogleBooksAPI.search ((⟨[], false, 24⟩ : SQLiteCache).set ['g']
        (Json.arr .nil) 0) ['g']
        (fun _ => GBOutcome.success [⟨['h','t','t','p',':','/','/','c','o','v','e','r'],
          Json.str ['b']⟩]) (2 + 1) 1).cache).get ['g'] =
        some (Json.arr (toJsonList (processItems
          [⟨['h','t','t','p',':','/','/','c','o','v','e','r'], Json.str ['b']⟩])))) ∧
    ((AIRecommendationEngine.get_captions ((⟨[], false, 24⟩ : SQLiteCache).set
        ['c'] (Json.arr .nil) 0) ['c'] 2
        (AIOutcome.success [['x'], ['y'], ['z']]) 1).1 =
      Json.arr (toJsonList (([['x'], ['y'], ['z']].take 2).map Json.str)) ∧
      ((AIRecommendationEngine.get_captions ((⟨[], false, 24⟩ : SQLiteCache).set
        ['c'] (Json.arr .nil) 0) ['c'] 2
        (AIOutcome.success [['x'], ['y'], ['z']]) 1).2).get ['c'] =
        some (Json.arr (toJsonList (([['x'], ['y'], ['z']].take 2).map
          Json.str)))) :=
  C10_falsy_cached_refetch ⟨[], false, 24⟩ ['g'] ['c']
    [⟨['h','t','t','p',':','/','/','c','o','v','e','r'], Json.str ['b']⟩]
    (fun _ => GBOutcome.success [⟨['h','t','t','p',':','/','/','c','o','v','e','r'],
      Json.str ['b']⟩]) 2 0 0 1 1 [['x'], ['y'], ['z']] 2 rfl rfl
